import Mathlib

/-!
# Verification of the go-hocon configuration core (src/config.go)

A shallow embedding of the value model, path navigator, accessor facade,
serializer and fallback-merge of the `hocon` Go package, with theorems
settling the specification claims.

Conventions of the embedding:
* Go interface values of type `Value` may be `nil`; a slot that can hold a
  Go `nil` interface is modelled as `Option Value` (`none` = Go `nil`).
  `Object` explicitly guards against `nil` values (`Object.Json`), and
  `concatenation` guards its fragments, so those positions are `Option Value`;
  `Array` elements are used unguarded (`a[0].Json()`), so they are `Value`.
* Go `map[string]Value` iteration order is unspecified; an `Object` is
  modelled as an association list, whose order stands for the iteration
  order the Go runtime happened to choose.  Keys are unique by the data
  model invariant ("Object keys are unique strings").
* Go panics (failed type assertions, `panic(...)` calls, failed
  `json.Unmarshal` in `Config.Json`) are modelled as an explicit `panic`
  outcome of the operation's result type.
* Machine integers: `Int` and `Duration` payloads are Go `int64`s produced
  by the out-of-scope parser; arithmetic in the modelled operations never
  overflows for such payloads, so they are embedded as `Int`.
-/

namespace Hocon

/-- `Type` constants of src/config.go (the Go `Type int` enumeration). -/
inductive GoType where
  | ObjectType
  | StringType
  | ArrayType
  | NumberType
  | BooleanType
  | NullType
  | SubstitutionType
  | ConcatenationType
  | valueWithAlternativeType
  deriving DecidableEq, Repr

/-- The closed set of node kinds implementing the Go `Value` interface:
`String`, `Int`, `Float32`, `Float64`, `Boolean`, `Null`, `Duration`,
`Substitution`, `valueWithAlternative`, `Object`, `Array`, `concatenation`.
`Float32`/`Float64` carry their `strconv.FormatFloat` scientific-notation
rendering (floating-point formatting is Go-stdlib behavior outside this
repository and no claim depends on it); `Duration` carries its nanosecond
count (`time.Duration`). `valueWithAlternative` holds a value and a
`Substitution` (path, optional flag). -/
inductive Value where
  | str (s : String)
  | int (i : Int)
  | float32 (rendering : String)
  | float64 (rendering : String)
  | bool (b : Bool)
  | null
  | duration (ns : Int)
  | substitution (path : String) (optional : Bool)
  | vwa (value : Value) (altPath : String) (altOptional : Bool)
  | obj (fields : List (String × Option Value))
  | arr (elems : List Value)
  | concat (frags : List (Option Value))
  deriving Repr

/-- The field list of an `Object` (`map[string]Value`; `none` = Go `nil`). -/
abbrev Fields := List (String × Option Value)

/-- `Value.Type()`: the kind tag of each node kind, exactly as returned by
the `Type()` methods in src/config.go (`Duration.Type()` returns
`StringType`; `Int`, `Float32` and `Float64` all return `NumberType`). -/
def Value.type : Value → GoType
  | .str _ => .StringType
  | .int _ => .NumberType
  | .float32 _ => .NumberType
  | .float64 _ => .NumberType
  | .bool _ => .BooleanType
  | .null => .NullType
  | .duration _ => .StringType
  | .substitution _ _ => .SubstitutionType
  | .vwa _ _ _ => .valueWithAlternativeType
  | .obj _ => .ObjectType
  | .arr _ => .ArrayType
  | .concat _ => .ConcatenationType

/-! ## Serializer (String() and Json() methods) -/

/-- Lowercase hex digit, as used by Go's JSON encoder for `\u00XX` escapes. -/
def hexDigitChar (n : Nat) : Char :=
  if n < 10 then Char.ofNat (48 + n) else Char.ofNat (87 + n)

/-- One character of Go `encoding/json` string encoding with
`SetEscapeHTML(false)`: `"` and `\` are backslash-escaped, `\n`, `\r`, `\t`
use their short forms, other control characters become `\u00XX`, and
U+2028/U+2029 are escaped; everything else (including `&<>`) is literal. -/
def jsonEscapeChar (c : Char) : String :=
  if c = '"' then "\\\""
  else if c = '\\' then "\\\\"
  else if c = '\n' then "\\n"
  else if c = '\r' then "\\r"
  else if c = '\t' then "\\t"
  else if c.toNat < 0x20 then
    String.mk ['\\', 'u', '0', '0', hexDigitChar (c.toNat / 16), hexDigitChar (c.toNat % 16)]
  else if c.toNat = 0x2028 then "\\u2028"
  else if c.toNat = 0x2029 then "\\u2029"
  else String.mk [c]

/-- `jsonMarshal` of src/config.go applied to a string: JSON-string-encode
it (`json.Encoder` with HTML escaping off, no indent, trailing newline
trimmed). -/
def jsonMarshalString (s : String) : String :=
  "\"" ++ String.join (s.data.map jsonEscapeChar) ++ "\""

/-- Go `strings.Trim(s, q)` where the cutset is the double-quote character:
removes all leading and all trailing `"` characters (interior ones stay). -/
def goTrimQuotes (s : String) : String :=
  String.mk (((s.data.dropWhile (· = '"')).reverse.dropWhile (· = '"')).reverse)

/-- Modelled from the spec: Duration's "canonical string form uses a human
time-unit abbreviation".  The exact formatting algorithm is Go's standard
library `time.Duration.String`, which is outside this repository's sources;
no claim depends on its output, so the nanosecond count with the `ns` unit
abbreviation stands in for it. -/
def durationGoString (ns : Int) : String :=
  toString ns ++ "ns"

/-- `Substitution.String()`: a `$`-brace wrapper around the path, with a
leading `?` when the substitution is optional. -/
def substitutionGoString (path : String) (optional : Bool) : String :=
  "$\x7b" ++ (if optional then "?" else "") ++ path ++ "\x7d"

mutual

/-- The `String()` method of each `Value` kind in src/config.go.
`Object.String()` and `Array.String()` return `Json()` (their bodies are
inlined here so the recursion is structural); `concatenation.String()`
joins the non-nil fragments' `String()` forms, each passed through
`strings.Trim(·, quote)`. -/
def Value.goString : Value → String
  | .str s => s
  | .int i => toString i
  | .float32 rendering => rendering
  | .float64 rendering => rendering
  | .bool b => if b then "true" else "false"
  | .null => "null"
  | .duration ns => durationGoString ns
  | .substitution path opt => substitutionGoString path opt
  | .vwa v path opt => "(" ++ Value.goString v ++ " | " ++ substitutionGoString path opt ++ ")"
  | .obj fields => "\x7b" ++ fieldsJson fields ++ "\x7d"
  | .arr elems => arrJson elems
  | .concat frags => concatFragments frags

/-- The `Json()` method of each `Value` kind in src/config.go.  Floats wrap
their `String()` rendering in quotes; `Duration.Json()` is the millisecond
count (`time.Duration.Milliseconds()`, i.e. ns divided by 10^6 truncating
toward zero); `Substitution`, `valueWithAlternative` and `concatenation`
JSON-string-encode their `String()` form. -/
def Value.goJson : Value → String
  | .str s => jsonMarshalString s
  | .int i => toString i
  | .float32 rendering => "\"" ++ rendering ++ "\""
  | .float64 rendering => "\"" ++ rendering ++ "\""
  | .bool b => if b then "true" else "false"
  | .null => "null"
  | .duration ns => toString (Int.tdiv ns 1000000)
  | .substitution path opt => jsonMarshalString (substitutionGoString path opt)
  | .vwa v path opt => jsonMarshalString ("(" ++ Value.goString v ++ " | " ++ substitutionGoString path opt ++ ")")
  | .obj fields => "\x7b" ++ fieldsJson fields ++ "\x7d"
  | .arr elems => arrJson elems
  | .concat frags => jsonMarshalString (concatFragments frags)

/-- Body of the `Object.Json()` loop: each pair rendered as
`jsonMarshal(key)`, a colon, the value's `Json()` (the literal `null` for a
nil value), with `", "` written after every pair but the last. -/
def fieldsJson : Fields → String
  | [] => ""
  | [(k, v)] => jsonMarshalString k ++ ":" ++ fieldValueJson v
  | (k, v) :: rest => jsonMarshalString k ++ ":" ++ fieldValueJson v ++ ", " ++ fieldsJson rest

/-- An `Object` field value's rendering inside `Object.Json()`: `Json()` of
the value, or the literal `null` when the stored interface value is nil. -/
def fieldValueJson : Option Value → String
  | some v => Value.goJson v
  | none => "null"

/-- `Array.Json()`: `[]` for the empty array, otherwise the first element's
`Json()` followed by a comma-prefixed `Json()` of each further element,
wrapped in brackets. -/
def arrJson : List Value → String
  | [] => "[]"
  | e :: es => "[" ++ Value.goJson e ++ arrJsonTail es ++ "]"

/-- The comma-prefixed tail of the `Array.Json()` loop. -/
def arrJsonTail : List Value → String
  | [] => ""
  | e :: es => "," ++ Value.goJson e ++ arrJsonTail es

/-- Body of the `concatenation.String()` loop: skip nil fragments, strip
leading/trailing double quotes from each fragment's `String()` rendering
(`strings.Trim(value.String(), quote)`), and append. -/
def concatFragments : List (Option Value) → String
  | [] => ""
  | none :: rest => concatFragments rest
  | some v :: rest => goTrimQuotes (Value.goString v) ++ concatFragments rest

end

/-! ## Path navigator (`Object.find`, `Object.copy`) -/

/-- Go map lookup `o[k]` with its comma-ok form: `none` when the key is
absent, `some v` when present (`v = none` models a stored nil interface
value). -/
def lookupKey : Fields → String → Option (Option Value)
  | [], _ => none
  | (k', v) :: rest, k => if k' = k then some v else lookupKey rest k

/-- Go map lookup `o[k]` without the ok flag: an absent key and a key
stored with a nil value both yield nil. -/
def joinLookup (o : Fields) (k : String) : Option Value :=
  match lookupKey o k with
  | none => none
  | some v => v

/-- Outcome of an operation that returns a Go `Value` (possibly nil) or
panics: `ok none` models a nil result, `panicked` a Go runtime panic. -/
inductive FindResult where
  | ok (v : Option Value)
  | panicked
  deriving Repr

/-- The loop of `Object.find` after `strings.Split(path, ".")`: walk every
key but the last through nested Objects.  A missing intermediate key
returns nil; an intermediate key whose value is nil or not an `Object`
makes the unchecked type assertion `value.(Object)` panic.  The terminal
key is looked up with plain map indexing (absent and nil-valued keys are
both nil).  The empty key list cannot arise from `strings.Split` (it
always returns at least one element); indexing `keys[size-1]` there would
panic. -/
def findKeys : Fields → List String → FindResult
  | _, [] => .panicked
  | o, [last] => .ok (joinLookup o last)
  | o, key :: rest =>
    match lookupKey o key with
    | none => .ok none
    | some none => .panicked
    | some (some (Value.obj o')) => findKeys o' rest
    | some (some _) => .panicked

/-- Go `strings.Split(s, ".")` on the character list: every maximal
(possibly empty) run of non-dot characters becomes a segment, so the
result always has one more segment than there are dots (and is never
empty). -/
def splitDots : List Char → List (List Char)
  | [] => [[]]
  | '.' :: rest => [] :: splitDots rest
  | c :: rest =>
    match splitDots rest with
    | seg :: segs => (c :: seg) :: segs
    | [] => [[c]]

/-- Go `strings.Split(path, dotToken)` as a `String` operation. -/
def goSplitDot (path : String) : List String :=
  (splitDots path.data).map String.mk

/-- `Object.find(path)`: split the path on `.` and walk the segments. -/
def Object.find (o : Fields) (path : String) : FindResult :=
  findKeys o (goSplitDot path)

/-- `Object.copy()`: deep-duplicate the Object, recursing into nested
Objects and sharing every other value (a nil value fails the comma-ok
assertion `v.(Object)` and is stored as-is). -/
def Object.copy : Fields → Fields
  | [] => []
  | (k, some (Value.obj o)) :: rest => (k, some (Value.obj (Object.copy o))) :: Object.copy rest
  | (k, v) :: rest => (k, v) :: Object.copy rest

/-! ## Merge resolver (`Object.copy` + `mergeObjects` + `Config.WithFallback`) -/

/-- Go map assignment `target[k] = v`: replace the binding of `k` if
present, otherwise add it. -/
def setKey : Fields → String → Option Value → Fields
  | [], k, v => [(k, v)]
  | (k', v') :: rest, k, v => if k' = k then (k, v) :: rest else (k', v') :: setKey rest k v

mutual

/-- Modelled from the spec (§4.3, "Object merge / fallback"): `mergeObjects`
is called by `Config.WithFallback` in src/config.go but defined in a source
file of this repository that is not under src/.  For every key of the
source (override) object: if the target also has that key and both values
are Objects, merge recursively; otherwise the override value replaces the
target value wholesale. -/
def mergeObjects (target : Fields) : Fields → Fields
  | [] => target
  | (k, v) :: rest => mergeObjects (setKey target k (mergeValue (joinLookup target k) v)) rest

/-- Modelled from the spec (§4.3): the value stored for one key during a
merge — the recursive merge when both the existing and the override value
are Objects, the override value otherwise. -/
def mergeValue : Option Value → Option Value → Option Value
  | some (Value.obj to_), some (Value.obj so) => some (Value.obj (mergeObjects to_ so))
  | _, v => v

end

/-- `Config.WithFallback`: when both the receiver's root and the fallback's
root are Objects, merge the current root into a deep copy of the fallback
root and wrap the result; otherwise return the receiver unchanged.  A
`Config` is a thin owner of its root `Value`, so it is embedded as that
root. -/
def Config.withFallback (c fallback : Value) : Value :=
  match c, fallback with
  | Value.obj current, Value.obj fallbackObject =>
    Value.obj (mergeObjects (Object.copy fallbackObject) current)
  | _, _ => c

/-! ## Accessor facade (`Config.Get` and the typed getters) -/

/-- `Config.Get(path)`: nil when the root's kind tag is not `ObjectType`,
otherwise `root.(Object).find(path)` (the assertion cannot fail after the
tag test: `obj` is the only kind whose tag is `ObjectType`). -/
def Config.get (root : Value) (path : String) : FindResult :=
  if root.type = GoType.ObjectType then
    match root with
    | Value.obj o => Object.find o path
    | _ => .panicked
  else .ok none

/-- Outcome of a typed getter: the value, a Go `error` (by its message), or
a propagated panic from `Object.find`. -/
inductive GetResult (α : Type) where
  | ok (a : α)
  | err (msg : String)
  | panicked
  deriving Repr

/-- Go `strconv.Atoi`: optional sign, then one or more base-10 digits, no
other characters; the result must fit in a signed 64-bit int.  `none`
models a non-nil error. -/
def goAtoi (s : String) : Option Int :=
  let (sign, digits) :=
    match s.data with
    | '+' :: rest => ((1 : Int), rest)
    | '-' :: rest => ((-1 : Int), rest)
    | cs => ((1 : Int), cs)
  if digits.isEmpty then none
  else if digits.all Char.isDigit then
    let n : Nat := digits.foldl (fun a c => a * 10 + (c.toNat - 48)) 0
    let v : Int := sign * n
    if v < -(2 ^ 63) ∨ 2 ^ 63 - 1 < v then none else some v
  else none

/-- `Config.GetString(path)`: not-found error for nil, otherwise the
value's `String()` rendering (any kind). -/
def Config.getString (root : Value) (path : String) : GetResult String :=
  match Config.get root path with
  | .panicked => .panicked
  | .ok none => .err ("config value not found at path: " ++ path)
  | .ok (some v) => .ok v.goString

/-- `Config.GetInt(path)`: not-found error for nil; an `Int` value
directly; a `String` value through `strconv.Atoi`; anything else (or a
failed parse) is a cannot-parse error. -/
def Config.getInt (root : Value) (path : String) : GetResult Int :=
  match Config.get root path with
  | .panicked => .panicked
  | .ok none => .err ("config value not found at path: " ++ path)
  | .ok (some v) =>
    match v with
    | Value.int i => .ok i
    | Value.str s =>
      match goAtoi s with
      | some i => .ok i
      | none => .err ("cannot parse value: " ++ path ++ " to int")
    | _ => .err ("cannot parse value: " ++ path ++ " to int")

/-- `Config.GetBoolean(path)`: not-found error for nil; a `Boolean` value
directly; the `String` forms `true/yes/on` and `false/no/off` exactly;
anything else is a cannot-parse error. -/
def Config.getBoolean (root : Value) (path : String) : GetResult Bool :=
  match Config.get root path with
  | .panicked => .panicked
  | .ok none => .err ("config value not found at path: " ++ path)
  | .ok (some v) =>
    match v with
    | Value.bool b => .ok b
    | Value.str s =>
      if s = "true" ∨ s = "yes" ∨ s = "on" then .ok true
      else if s = "false" ∨ s = "no" ∨ s = "off" then .ok false
      else .err ("cannot parse value: " ++ path ++ " to boolean")
    | _ => .err ("cannot parse value: " ++ path ++ " to boolean")

/-- `Config.GetDuration(path)`: not-found error for nil; the comma-ok
assertion `value.(Duration)` accepts exactly the `Duration` kind; anything
else is a cannot-parse error. -/
def Config.getDuration (root : Value) (path : String) : GetResult Int :=
  match Config.get root path with
  | .panicked => .panicked
  | .ok none => .err ("config value not found at path: " ++ path)
  | .ok (some v) =>
    match v with
    | Value.duration ns => .ok ns
    | _ => .err ("cannot parse value: " ++ path ++ " to Duration")

/-! ## `Config.Json` -/

/-- Outcome of `Config.Json()`: it unmarshals `root.Json()` into a Go
`map[string]interface` value and re-marshals it, calling `panic` when the
unmarshal returns an error. -/
inductive JsonOutcome where
  | ok
  | panicked
  deriving DecidableEq, Repr

/-- `Config.Json()`: `json.Unmarshal` into `map[string]interface` succeeds
exactly when the rendered document's top-level JSON value is a JSON object
(for this serializer: the rendering starts with an opening brace) or the
literal `null` (which Go unmarshals into a nil map without error); on any
other root rendering the method panics. -/
def Config.json (root : Value) : JsonOutcome :=
  if (Value.goJson root) = "null" then .ok
  else
    match (Value.goJson root).data with
    | '\x7b' :: _ => .ok
    | _ => .panicked

/-- The comma-ok presence flag of a Go map lookup (`_, hasKey := o[k]`). -/
def Object.hasKey (o : Fields) (k : String) : Bool :=
  (lookupKey o k).isSome

/-! ## Spec-side rendering formulas

The serialization claims describe the output as "the pieces, joined with a
separator".  The following joins state that formula independently of the
Go builder loops, so the serializer lemmas relate the two. -/

/-- Plain concatenation of a list of strings, no added separators. -/
def joinStrings : List String → String
  | [] => ""
  | s :: rest => s ++ joinStrings rest

/-- Strings joined with `sep` between consecutive elements. -/
def joinStringsSep (sep : String) : List String → String
  | [] => ""
  | [s] => s
  | s :: rest => s ++ sep ++ joinStringsSep sep rest

/-- The concatenation rendering that claim C5 asserts, read literally:
every double-quote character of each fragment's rendering is removed
(interior ones included) before joining. -/
def stripAllQuotes (s : String) : String :=
  String.mk (s.data.filter (· ≠ '"'))

/-- C5's literal rendering of a whole concatenation: the fragments'
renderings with all double quotes stripped, joined in order. -/
def concatStringAllQuotesStripped (frags : List (Option Value)) : String :=
  joinStrings (frags.filterMap (Option.map fun v => stripAllQuotes (Value.goString v)))

/-! ## Helper lemmas about the navigator and merge resolver -/

/-- Deep-copying an Object yields a structurally equal Object (the Go copy
allocates new maps; observationally the trees coincide). -/
theorem copy_eq (f : Fields) : Object.copy f = f := by
  induction f using Object.copy.induct <;> simp [Object.copy, *]

theorem lookupKey_setKey_self (t : Fields) (k : String) (v : Option Value) :
    lookupKey (setKey t k v) k = some v := by
  induction t with
  | nil => simp [setKey, lookupKey]
  | cons kv rest ih =>
    obtain ⟨k', v'⟩ := kv
    by_cases h : k' = k <;> simp [setKey, lookupKey, h, ih]

theorem lookupKey_setKey_other (t : Fields) (k q : String) (v : Option Value) (h : q ≠ k) :
    lookupKey (setKey t k v) q = lookupKey t q := by
  have hkq : ¬ k = q := fun hh => h hh.symm
  induction t with
  | nil => simp [setKey, lookupKey, hkq]
  | cons kv rest ih =>
    obtain ⟨k', v'⟩ := kv
    by_cases hk : k' = k
    · subst hk
      simp [setKey, lookupKey, hkq]
    · simp [setKey, lookupKey, hk, ih]

theorem lookupKey_eq_none (l : Fields) (k : String) (h : k ∉ l.map Prod.fst) :
    lookupKey l k = none := by
  induction l with
  | nil => simp [lookupKey]
  | cons kv rest ih =>
    obtain ⟨k', v'⟩ := kv
    simp only [List.map_cons, List.mem_cons, not_or] at h
    have hne : ¬ k' = k := fun hh => h.1 hh.symm
    simp [lookupKey, hne, ih h.2]

theorem joinLookup_setKey_other (t : Fields) (k q : String) (v : Option Value) (h : q ≠ k) :
    joinLookup (setKey t k v) q = joinLookup t q := by
  simp [joinLookup, lookupKey_setKey_other t k q v h]

/-- Per-key characterization of the merge: a key of the override object is
bound to `mergeValue` of the two sides, a key absent from the override
keeps the target's binding. -/
theorem mergeObjects_lookup (s : Fields) (hs : (s.map Prod.fst).Nodup) (t : Fields) (q : String) :
    lookupKey (mergeObjects t s) q =
      match lookupKey s q with
      | none => lookupKey t q
      | some sv => some (mergeValue (joinLookup t q) sv) := by
  induction s generalizing t with
  | nil => simp [mergeObjects, lookupKey]
  | cons kv rest ih =>
    obtain ⟨k, v⟩ := kv
    simp only [List.map_cons, List.nodup_cons] at hs
    by_cases hq : k = q
    · subst hq
      have hrest : lookupKey rest k = none := lookupKey_eq_none rest k hs.1
      simp [mergeObjects, lookupKey, ih hs.2, hrest, lookupKey_setKey_self]
    · simp [mergeObjects, lookupKey, hq, ih hs.2,
        lookupKey_setKey_other _ k q _ (fun hh => hq hh.symm),
        joinLookup_setKey_other _ k q _ (fun hh => hq hh.symm)]

/-- `mergeValue` leaves the override value untouched unless both sides are
Objects. -/
theorem mergeValue_eq_override (x v : Option Value)
    (h : ∀ a b, ¬(x = some (Value.obj a) ∧ v = some (Value.obj b))) :
    mergeValue x v = v := by
  match x, v with
  | none, v => simp [mergeValue]
  | some (Value.obj a), some (Value.obj b) => exact absurd ⟨rfl, rfl⟩ (h a b)
  | some (Value.obj a), none => simp [mergeValue]
  | some (Value.obj a), some (Value.str _) => simp [mergeValue]
  | some (Value.obj a), some (Value.int _) => simp [mergeValue]
  | some (Value.obj a), some (Value.float32 _) => simp [mergeValue]
  | some (Value.obj a), some (Value.float64 _) => simp [mergeValue]
  | some (Value.obj a), some (Value.bool _) => simp [mergeValue]
  | some (Value.obj a), some Value.null => simp [mergeValue]
  | some (Value.obj a), some (Value.duration _) => simp [mergeValue]
  | some (Value.obj a), some (Value.substitution _ _) => simp [mergeValue]
  | some (Value.obj a), some (Value.vwa _ _ _) => simp [mergeValue]
  | some (Value.obj a), some (Value.arr _) => simp [mergeValue]
  | some (Value.obj a), some (Value.concat _) => simp [mergeValue]
  | some (Value.str _), v => simp [mergeValue]
  | some (Value.int _), v => simp [mergeValue]
  | some (Value.float32 _), v => simp [mergeValue]
  | some (Value.float64 _), v => simp [mergeValue]
  | some (Value.bool _), v => simp [mergeValue]
  | some Value.null, v => simp [mergeValue]
  | some (Value.duration _), v => simp [mergeValue]
  | some (Value.substitution _ _), v => simp [mergeValue]
  | some (Value.vwa _ _ _), v => simp [mergeValue]
  | some (Value.arr _), v => simp [mergeValue]
  | some (Value.concat _), v => simp [mergeValue]

/-- The `concatenation.String()` loop equals the joined list of
quote-trimmed fragment renderings (nil fragments skipped). -/
theorem concatFragments_eq (frags : List (Option Value)) :
    concatFragments frags
      = joinStrings (frags.filterMap (Option.map fun v => goTrimQuotes (Value.goString v))) := by
  induction frags with
  | nil => rfl
  | cons f rest ih => cases f <;> simp [concatFragments, joinStrings, ih, List.filterMap_cons]

/-- The `Object.Json()` loop equals the pair renderings joined by `", "`. -/
theorem fieldsJson_eq (fs : Fields) :
    fieldsJson fs
      = joinStringsSep ", " (fs.map fun kv => jsonMarshalString kv.1 ++ ":" ++ fieldValueJson kv.2) := by
  induction fs with
  | nil => rfl
  | cons kv rest ih =>
    obtain ⟨k, v⟩ := kv
    cases rest with
    | nil => rfl
    | cons kv2 rest2 => simp [fieldsJson, joinStringsSep, ih]

theorem arrJsonTail_eq (e : Value) (es : List Value) :
    Value.goJson e ++ arrJsonTail es = joinStringsSep "," ((e :: es).map Value.goJson) := by
  induction es generalizing e with
  | nil => simp [arrJsonTail, joinStringsSep, String.append_empty]
  | cons e2 rest ih =>
    have h2 := ih e2
    simp only [List.map_cons] at h2
    show Value.goJson e ++ ("," ++ Value.goJson e2 ++ arrJsonTail rest)
        = Value.goJson e ++ "," ++ joinStringsSep "," (Value.goJson e2 :: List.map Value.goJson rest)
    rw [← h2]
    simp [String.append_assoc]

/-- `Array.Json()` equals the element renderings joined by `","` inside
brackets (including the empty case). -/
theorem arrJson_eq (es : List Value) :
    arrJson es = "[" ++ joinStringsSep "," (es.map Value.goJson) ++ "]" := by
  cases es with
  | nil => rfl
  | cons e rest => simp [arrJson, arrJsonTail_eq, String.append_assoc]

/-! ## Claim theorems -/

/-- Claim C1 (code_bug): the claim requires every path lookup whose
intermediate segment resolves to a non-Object value to return a typed
"path traverses through a non-object value" error.  The code instead
panics: on the Object `a = 1` and the path `a.b`, the unchecked type
assertion `value.(Object)` in `Object.find` aborts, and `Config.Get` and
the typed getters built on it propagate the panic (while the same lookup
through a genuine nested Object succeeds). -/
theorem find_panics_on_non_object_segment :
    Object.find [("a", some (.int 1))] "a.b" = .panicked
    ∧ Config.get (.obj [("a", some (.int 1))]) "a.b" = .panicked
    ∧ Config.getString (.obj [("a", some (.int 1))]) "a.b" = .panicked
    ∧ Config.getBoolean (.obj [("a", some (.int 1))]) "a.b" = .panicked
    ∧ Object.find [("a", some (.obj [("b", some (.int 7))]))] "a.b" = .ok (some (.int 7)) := by
  exact ⟨rfl, rfl, rfl, rfl, rfl⟩

/-- Claim C2 (code_bug): the claim says no documented operation is fatal,
`Config.Json` on any root kind included.  The code's `Config.Json` calls
`panic` whenever `json.Unmarshal` of the rendered root into a Go map
fails, which happens for every root whose JSON form is not an object
(Integer, Array and String roots shown); an Object root succeeds. -/
theorem config_json_panics_on_non_object_root :
    Config.json (.int 1) = .panicked
    ∧ Config.json (.arr [.int 1, .int 2]) = .panicked
    ∧ Config.json (.str "a") = .panicked
    ∧ Config.json (.obj [("a", some (.int 1))]) = .ok := by
  exact ⟨rfl, rfl, rfl, rfl⟩

/-- Claim C3: for Objects `O` (override, duplicate-free keys) and `F`
(fallback), `WithFallback` merges `O` into a deep copy of `F` and wraps
the result; the copy equals `F`; the result's key set is the union of the
two key sets; a key bound to Objects on both sides gets the recursive
merge; any other key of `O` keeps `O`'s value; a key absent from `O`
keeps `F`'s binding.  (The embedding is purely functional, so the inputs
are untouched by construction.) -/
theorem withFallback_merges_objects (O F : Fields) (hO : (O.map Prod.fst).Nodup) :
    Config.withFallback (.obj O) (.obj F) = .obj (mergeObjects (Object.copy F) O)
    ∧ Object.copy F = F
    ∧ (∀ q, Object.hasKey (mergeObjects (Object.copy F) O) q
          = (Object.hasKey O q || Object.hasKey F q))
    ∧ (∀ q oo fo, lookupKey O q = some (some (.obj oo)) → lookupKey F q = some (some (.obj fo)) →
        lookupKey (mergeObjects (Object.copy F) O) q = some (some (.obj (mergeObjects fo oo))))
    ∧ (∀ q ov, lookupKey O q = some ov →
        (∀ oo fo, ¬(ov = some (.obj oo) ∧ lookupKey F q = some (some (.obj fo)))) →
        lookupKey (mergeObjects (Object.copy F) O) q = some ov)
    ∧ (∀ q, lookupKey O q = none →
        lookupKey (mergeObjects (Object.copy F) O) q = lookupKey F q) := by
  have hmaster := mergeObjects_lookup O hO (Object.copy F)
  rw [copy_eq F] at hmaster
  rw [copy_eq F]
  refine ⟨by simp [Config.withFallback, copy_eq], rfl, ?_, ?_, ?_, ?_⟩
  · intro q
    rw [Object.hasKey, hmaster q]
    cases h : lookupKey O q <;> simp [Object.hasKey, h]
  · intro q oo fo hOq hFq
    rw [hmaster q, hOq]
    have hj : joinLookup F q = some (.obj fo) := by simp [joinLookup, hFq]
    simp [hj, mergeValue]
  · intro q ov hOq hne
    rw [hmaster q, hOq]
    refine congrArg some (mergeValue_eq_override _ _ ?_)
    intro a b hab
    obtain ⟨hja, hvb⟩ := hab
    have hFa : lookupKey F q = some (some (Value.obj a)) := by
      cases hF : lookupKey F q with
      | none => simp [joinLookup, hF] at hja
      | some w => simp [joinLookup, hF] at hja; rw [hja]
    exact hne b a ⟨hvb, hFa⟩
  · intro q hOq
    rw [hmaster q, hOq]

/-- Claim C3, witness: merging `a = "o", n = (x = 1, y = 2)` over fallback
`b = 3, n = (y = 9, z = 4)` binds `n` to the recursive merge of the two
nested Objects. -/
theorem withFallback_merges_objects_witness :
    lookupKey
        (mergeObjects
          (Object.copy [("b", some (.int 3)), ("n", some (.obj [("y", some (.int 9)), ("z", some (.int 4))]))])
          [("a", some (.str "o")), ("n", some (.obj [("x", some (.int 1)), ("y", some (.int 2))]))])
        "n"
      = some (some (.obj (mergeObjects [("y", some (.int 9)), ("z", some (.int 4))]
          [("x", some (.int 1)), ("y", some (.int 2))]))) := by
  exact (withFallback_merges_objects
      [("a", some (.str "o")), ("n", some (.obj [("x", some (.int 1)), ("y", some (.int 2))]))]
      [("b", some (.int 3)), ("n", some (.obj [("y", some (.int 9)), ("z", some (.int 4))]))]
      (by decide)).2.2.2.1 "n" _ _ (by rfl) (by rfl)

/-- Claim C4: whenever the receiver's root or the fallback's root is not
an Object, `WithFallback` returns the receiver unchanged, in both
directions of the asymmetry. -/
theorem withFallback_noop_on_non_object_root (c fallback : Value)
    (h : (∀ o : Fields, c ≠ .obj o) ∨ (∀ o : Fields, fallback ≠ .obj o)) :
    Config.withFallback c fallback = c := by
  unfold Config.withFallback
  split
  · rename_i current fallbackObject
    rcases h with h1 | h1
    · exact absurd rfl (h1 current)
    · exact absurd rfl (h1 fallbackObject)
  · rfl

/-- Claim C4, witness: an Integer receiver ignores an Object fallback, an
Array receiver ignores an Object fallback, and an Object receiver ignores
a String fallback. -/
theorem withFallback_noop_on_non_object_root_witness :
    Config.withFallback (.int 1) (.obj [("a", some (.int 2))]) = .int 1
    ∧ Config.withFallback (.arr [.int 1]) (.obj []) = .arr [.int 1]
    ∧ Config.withFallback (.obj [("a", some (.int 2))]) (.str "x") = .obj [("a", some (.int 2))] := by
  refine ⟨?_, ?_, ?_⟩
  · exact withFallback_noop_on_non_object_root _ _ (Or.inl fun o h => by cases h)
  · exact withFallback_noop_on_non_object_root _ _ (Or.inl fun o h => by cases h)
  · exact withFallback_noop_on_non_object_root _ _ (Or.inr fun o h => by cases h)

/-- Claim C5, counterexample: the claim says "any double-quote characters
in each fragment's rendering" are stripped, but the code uses
`strings.Trim`, which strips only leading and trailing quotes: on the
single fragment `String("a\"b")` the code renders `a"b` while the claim's
literal reading renders `ab`. -/
theorem concat_interior_quote_survives :
    Value.goString (.concat [some (.str "a\"b")]) = "a\"b"
    ∧ concatStringAllQuotesStripped [some (.str "a\"b")] = "ab"
    ∧ Value.goString (.concat [some (.str "a\"b")])
        ≠ concatStringAllQuotesStripped [some (.str "a\"b")] := by
  refine ⟨rfl, rfl, ?_⟩
  intro h
  simp [concatStringAllQuotesStripped, stripAllQuotes, joinStrings, Value.goString,
    concatFragments, goTrimQuotes] at h

/-- Claim C5 as amended: a Concatenation's `String()` form is the
fragments' `String()` renderings, each with leading and trailing (not
interior) double quotes stripped, joined in fragment order with no added
separators (nil fragments skipped); its `Json()` form is that joined
string, JSON-string-encoded. -/
theorem concat_rendering (frags : List (Option Value)) :
    Value.goString (.concat frags)
      = joinStrings (frags.filterMap (Option.map fun v => goTrimQuotes (Value.goString v)))
    ∧ Value.goJson (.concat frags) = jsonMarshalString (Value.goString (.concat frags)) := by
  exact ⟨concatFragments_eq frags, rfl⟩

/-- Claim C5, witness: the concatenation of `"x"` (quoted), `2` and a nil
fragment renders `x2`. -/
theorem concat_rendering_witness :
    Value.goString (.concat [some (.str "\"x\""), some (.int 2), none])
      = joinStrings ([some (Value.str "\"x\""), some (.int 2), none].filterMap
          (Option.map fun v => goTrimQuotes (Value.goString v)))
    ∧ Value.goString (.concat [some (.str "\"x\""), some (.int 2), none]) = "x2" := by
  exact ⟨(concat_rendering [some (.str "\"x\""), some (.int 2), none]).1, rfl⟩

/-- Claim C6: `GetBoolean` returns the bool of a Boolean value directly;
for a String it returns true exactly on "true"/"yes"/"on" and false
exactly on "false"/"no"/"off"; any other String content, and any other
value kind, produces the "cannot parse value: path to boolean" error. -/
theorem getBoolean_spec (root : Value) (path : String) :
    (∀ b, Config.get root path = .ok (some (.bool b)) → Config.getBoolean root path = .ok b)
    ∧ (Config.get root path = .ok (some (.str "true")) → Config.getBoolean root path = .ok true)
    ∧ (Config.get root path = .ok (some (.str "yes")) → Config.getBoolean root path = .ok true)
    ∧ (Config.get root path = .ok (some (.str "on")) → Config.getBoolean root path = .ok true)
    ∧ (Config.get root path = .ok (some (.str "false")) → Config.getBoolean root path = .ok false)
    ∧ (Config.get root path = .ok (some (.str "no")) → Config.getBoolean root path = .ok false)
    ∧ (Config.get root path = .ok (some (.str "off")) → Config.getBoolean root path = .ok false)
    ∧ (∀ s, Config.get root path = .ok (some (.str s)) →
        s ≠ "true" → s ≠ "yes" → s ≠ "on" → s ≠ "false" → s ≠ "no" → s ≠ "off" →
        Config.getBoolean root path = .err ("cannot parse value: " ++ path ++ " to boolean"))
    ∧ (∀ v, Config.get root path = .ok (some v) → (∀ b, v ≠ .bool b) → (∀ s, v ≠ .str s) →
        Config.getBoolean root path = .err ("cannot parse value: " ++ path ++ " to boolean")) := by
  refine ⟨fun b h => by simp [Config.getBoolean, h],
    fun h => by simp [Config.getBoolean, h],
    fun h => by simp [Config.getBoolean, h],
    fun h => by simp [Config.getBoolean, h],
    fun h => by simp [Config.getBoolean, h],
    fun h => by simp [Config.getBoolean, h],
    fun h => by simp [Config.getBoolean, h],
    fun s h h1 h2 h3 h4 h5 h6 => by simp [Config.getBoolean, h, h1, h2, h3, h4, h5, h6],
    fun v h hb hs => ?_⟩
  cases v
  case bool b => exact absurd rfl (hb b)
  case str s => exact absurd rfl (hs s)
  all_goals simp [Config.getBoolean, h]

/-- Claim C6, witness: the String "yes" reads as true. -/
theorem getBoolean_spec_witness :
    Config.getBoolean (.obj [("a", some (.str "yes"))]) "a" = .ok true := by
  exact (getBoolean_spec (.obj [("a", some (.str "yes"))]) "a").2.2.1 rfl

/-- Claim C7: `GetInt` returns an Integer value directly; a String value
is parsed as a base-10 integer (`strconv.Atoi`) and returned on success;
a non-parsing String and every other value kind produce the "cannot parse
value: path to int" error; an absent path produces the "config value not
found at path: path" error. -/
theorem getInt_spec (root : Value) (path : String) :
    (∀ i, Config.get root path = .ok (some (.int i)) → Config.getInt root path = .ok i)
    ∧ (∀ s i, Config.get root path = .ok (some (.str s)) → goAtoi s = some i →
        Config.getInt root path = .ok i)
    ∧ (∀ s, Config.get root path = .ok (some (.str s)) → goAtoi s = none →
        Config.getInt root path = .err ("cannot parse value: " ++ path ++ " to int"))
    ∧ (∀ v, Config.get root path = .ok (some v) → (∀ i, v ≠ .int i) → (∀ s, v ≠ .str s) →
        Config.getInt root path = .err ("cannot parse value: " ++ path ++ " to int"))
    ∧ (Config.get root path = .ok none →
        Config.getInt root path = .err ("config value not found at path: " ++ path)) := by
  refine ⟨fun i h => by simp [Config.getInt, h],
    fun s i h ha => by simp [Config.getInt, h, ha],
    fun s h ha => by simp [Config.getInt, h, ha],
    fun v h hi hs => ?_,
    fun h => by simp [Config.getInt, h]⟩
  cases v
  case int i => exact absurd rfl (hi i)
  case str s => exact absurd rfl (hs s)
  all_goals simp [Config.getInt, h]

/-- Claim C7, witness: String "3" reads as 3, String "aa" and an Array
cannot parse, and an absent path is not found. -/
theorem getInt_spec_witness :
    Config.getInt (.obj [("a", some (.str "3"))]) "a" = .ok 3
    ∧ Config.getInt (.obj [("a", some (.str "aa"))]) "a" = .err "cannot parse value: a to int"
    ∧ Config.getInt (.obj [("a", some (.arr [.int 1]))]) "a" = .err "cannot parse value: a to int"
    ∧ Config.getInt (.obj [("b", some (.int 1))]) "a" = .err "config value not found at path: a" := by
  refine ⟨?_, ?_, ?_, ?_⟩
  · exact (getInt_spec (.obj [("a", some (.str "3"))]) "a").2.1 "3" 3 rfl rfl
  · exact (getInt_spec (.obj [("a", some (.str "aa"))]) "a").2.2.1 "aa" rfl rfl
  · exact (getInt_spec (.obj [("a", some (.arr [.int 1]))]) "a").2.2.2.1 _ rfl
      (fun i h => by cases h) (fun s h => by cases h)
  · exact (getInt_spec (.obj [("b", some (.int 1))]) "a").2.2.2.2 rfl

/-- Claim C8: an Object's `String()` equals its `Json()` and renders an
opening brace, the `"key":value` pairs joined by a comma-and-space, and a
closing brace (the empty Object rendering the bare brace pair); an Array
renders the elements' `Json()` forms joined by a bare comma inside
brackets (the empty Array rendering the bare bracket pair); concretely
the empty Object renders as the two braces and `Array(1, 2)` renders
`[1,2]`. -/
theorem object_array_rendering :
    (∀ fields : Fields, Value.goString (.obj fields) = Value.goJson (.obj fields))
    ∧ (∀ fields : Fields, Value.goJson (.obj fields)
        = "\x7b" ++ joinStringsSep ", "
            (fields.map fun kv => jsonMarshalString kv.1 ++ ":" ++ fieldValueJson kv.2) ++ "\x7d")
    ∧ (∀ elems : List Value, Value.goString (.arr elems) = Value.goJson (.arr elems))
    ∧ (∀ elems : List Value, Value.goJson (.arr elems)
        = "[" ++ joinStringsSep "," (elems.map Value.goJson) ++ "]")
    ∧ Value.goString (.obj []) = "\x7b\x7d"
    ∧ Value.goString (.arr [.int 1, .int 2]) = "[1,2]" := by
  refine ⟨fun fields => rfl, fun fields => ?_, fun elems => rfl, fun elems => arrJson_eq elems,
    rfl, rfl⟩
  show "\x7b" ++ fieldsJson fields ++ "\x7d" = _
  rw [fieldsJson_eq]

/-- Claim C8, witness: a two-key Object and a three-element Array render
with the claimed separators. -/
theorem object_array_rendering_witness :
    Value.goJson (.obj [("a", some (.int 1)), ("b", some (.bool true))])
      = "\x7b\"a\":1, \"b\":true\x7d"
    ∧ Value.goJson (.arr [.int 1, .int 2, .int 3]) = "[1,2,3]" := by
  have h := object_array_rendering
  exact ⟨by rw [h.2.1 [("a", some (.int 1)), ("b", some (.bool true))]]; rfl,
    by rw [h.2.2.2.1 [.int 1, .int 2, .int 3]]; rfl⟩

/-- Claim C9: the kind tag does not distinguish all node kinds —
`Duration.Type()` is `StringType` like `String.Type()`, and `Int`,
`Float32`, `Float64` all report `NumberType` — and the getters
discriminate by direct value-type match, not by the tag: `GetDuration`
succeeds on a Duration but rejects a String (same tag), and `GetInt`
succeeds on an Int but rejects either Float (same tag). -/
theorem kind_tags_collide (root : Value) (path : String) :
    (∀ ns, (Value.duration ns).type = GoType.StringType)
    ∧ (∀ s, (Value.str s).type = GoType.StringType)
    ∧ (∀ i, (Value.int i).type = GoType.NumberType)
    ∧ (∀ r, (Value.float32 r).type = GoType.NumberType)
    ∧ (∀ r, (Value.float64 r).type = GoType.NumberType)
    ∧ (∀ ns, Config.get root path = .ok (some (.duration ns)) →
        Config.getDuration root path = .ok ns)
    ∧ (∀ s, Config.get root path = .ok (some (.str s)) →
        Config.getDuration root path = .err ("cannot parse value: " ++ path ++ " to Duration"))
    ∧ (∀ i, Config.get root path = .ok (some (.int i)) → Config.getInt root path = .ok i)
    ∧ (∀ r, Config.get root path = .ok (some (.float64 r)) →
        Config.getInt root path = .err ("cannot parse value: " ++ path ++ " to int"))
    ∧ (∀ r, Config.get root path = .ok (some (.float32 r)) →
        Config.getInt root path = .err ("cannot parse value: " ++ path ++ " to int")) := by
  exact ⟨fun _ => rfl, fun _ => rfl, fun _ => rfl, fun _ => rfl, fun _ => rfl,
    fun ns h => by simp [Config.getDuration, h],
    fun s h => by simp [Config.getDuration, h],
    fun i h => by simp [Config.getInt, h],
    fun r h => by simp [Config.getInt, h],
    fun r h => by simp [Config.getInt, h]⟩

/-- Claim C9, witness: `GetDuration` accepts a Duration and rejects a
String although both carry the String kind tag, and `GetInt` rejects a
Float64 although it carries the Number kind tag like Int. -/
theorem kind_tags_collide_witness :
    Config.getDuration (.obj [("a", some (.duration 5))]) "a" = .ok 5
    ∧ Config.getDuration (.obj [("a", some (.str "5s"))]) "a"
        = .err "cannot parse value: a to Duration"
    ∧ Config.getInt (.obj [("a", some (.float64 "2e+00"))]) "a"
        = .err "cannot parse value: a to int" := by
  refine ⟨?_, ?_, ?_⟩
  · exact (kind_tags_collide (.obj [("a", some (.duration 5))]) "a").2.2.2.2.2.1 5 rfl
  · exact (kind_tags_collide (.obj [("a", some (.str "5s"))]) "a").2.2.2.2.2.2.1 "5s" rfl
  · exact (kind_tags_collide (.obj [("a", some (.float64 "2e+00"))]) "a").2.2.2.2.2.2.2.2.1 _ rfl

/-- Claim C10: a single-segment key bound to a nil value is serialized as
that key with the literal `null`, yet `Config.Get` returns nil for its
path — exactly as for an absent key — and every typed getter fails with
the "config value not found at path" error. -/
theorem nil_valued_key_renders_null_but_reads_absent (k : String) (hk : goSplitDot k = [k]) :
    Value.goJson (.obj [(k, none)]) = "\x7b" ++ (jsonMarshalString k ++ ":" ++ "null") ++ "\x7d"
    ∧ Config.get (.obj [(k, none)]) k = .ok none
    ∧ Config.get (.obj []) k = .ok none
    ∧ Config.getString (.obj [(k, none)]) k = .err ("config value not found at path: " ++ k)
    ∧ Config.getInt (.obj [(k, none)]) k = .err ("config value not found at path: " ++ k)
    ∧ Config.getBoolean (.obj [(k, none)]) k = .err ("config value not found at path: " ++ k)
    ∧ Config.getDuration (.obj [(k, none)]) k = .err ("config value not found at path: " ++ k) := by
  have hget : Config.get (.obj [(k, none)]) k = .ok none := by
    simp [Config.get, Value.type, Object.find, hk, findKeys, joinLookup, lookupKey]
  have hget0 : Config.get (.obj []) k = .ok none := by
    simp [Config.get, Value.type, Object.find, hk, findKeys, joinLookup, lookupKey]
  refine ⟨rfl, hget, hget0, ?_, ?_, ?_, ?_⟩
  · simp [Config.getString, hget]
  · simp [Config.getInt, hget]
  · simp [Config.getBoolean, hget]
  · simp [Config.getDuration, hget]

/-- Claim C10, witness: the Object with `a` bound to nil serializes as
the key with `null`, while `GetString` reports the value not found. -/
theorem nil_valued_key_renders_null_but_reads_absent_witness :
    Value.goJson (.obj [("a", none)]) = "\x7b\"a\":null\x7d"
    ∧ Config.getString (.obj [("a", none)]) "a" = .err "config value not found at path: a" := by
  have h := nil_valued_key_renders_null_but_reads_absent "a" rfl
  exact ⟨by rw [h.1]; rfl, h.2.2.2.1⟩


end Hocon
